import Mathlib

/-!
# Verification of the moreos cookie library

Shallow embedding of the moreos package (src/moreos/{cookie,parsing,policy,
storage,jar}.py) in Lean 4, together with theorems settling the frozen claims
about it.

Conventions of the embedding:
* Python `datetime.datetime` / `datetime.timedelta` values are modelled as
  integers (`Instant` / `Duration`); only their ordered additive structure is
  used by the code under verification.
* Python strings are modelled as Lean `String` at structure boundaries and as
  `List Char` inside the character-level algorithms.  `str.lower` is modelled
  as ASCII lowercasing (`Char.toLower`), which agrees with Python on every
  string appearing in the code and claims.
* Fallible Python code (a `raise` escaping a function) is modelled with
  `Option`/`Except`: a `none` / `.error` result marks the spot where the
  Python exception leaves the modelled function.
-/

namespace Moreos

/-- Timestamps (`datetime.datetime`) as integers. -/
abbrev Instant := Int

/-- Durations (`datetime.timedelta`) as integers. -/
abbrev Duration := Int

/-- Unpack a `String` into its character list. -/
def chars (s : String) : List Char := s.data

/-- Repack a character list into a `String`. -/
def ofChars (l : List Char) : String := ⟨l⟩

/-- ASCII lowercasing of a character list, modelling Python `str.lower` on the
ASCII strings handled by the library. -/
def lowerL (l : List Char) : List Char := l.map Char.toLower

/-- `lStartsWith s pre` models Python `s.startswith(pre)`. -/
def lStartsWith : List Char → List Char → Bool
  | _, [] => true
  | [], _ :: _ => false
  | c :: s, p :: ps => c = p && lStartsWith s ps

/-- `strIndexOf needle hay` models Python `hay.index(needle)`: the index of
the first occurrence of `needle` as a substring of `hay`, and `none` for the
`ValueError` raised when there is no occurrence. -/
def strIndexOf (needle : List Char) : List Char → Option Nat
  | [] => if lStartsWith [] needle then some 0 else none
  | c :: t =>
    if lStartsWith (c :: t) needle then some 0
    else (strIndexOf needle t).map (· + 1)

/-! ## cookie.py : SameSitePolicy, CookieType, Cookie -/

/-- `moreos.cookie.SameSitePolicy`. -/
inductive SameSitePolicy where
  | lax
  | strict
  | nonePolicy
deriving Repr, DecidableEq

/-- `SameSitePolicy.from_string`: lowercase the value and look the member up
by attribute name (`getattr(cls, policy.lower(), None)`); unknown names give
`None`. -/
def SameSitePolicy.from_string (policy : Option (List Char)) :
    Option SameSitePolicy :=
  match policy with
  | none => none
  | some cs =>
    let l := lowerL cs
    if l = chars "lax" then some .lax
    else if l = chars "strict" then some .strict
    else if l = chars "none" then some .nonePolicy
    else none

/-- `moreos.cookie.CookieType`. -/
inductive CookieType where
  | server
  | client
deriving Repr, DecidableEq

/-- `CookieType.from_string`: case-insensitive mapping of the header name to
the cookie type; anything else (`None` included) gives `None`. -/
def CookieType.from_string (v : Option String) : Option CookieType :=
  match v with
  | none => none
  | some s =>
    let lowered := lowerL (chars s)
    if lowered = chars "set-cookie" then some .server
    else if lowered = chars "cookie" then some .client
    else none

/-- `moreos.cookie.Cookie` after its attrs converters have run: `samesite`
holds the converted enum, `expires` the converted instant, `max_age` the
converted duration.  `extensions` is the (insertion-ordered) dict built by the
parser; its values come from `re.Match.groupdict` and may be `None`.  `raw`,
`cookie_type` (Python `_type`) and `received_at` (Python `_received_at`) carry
`eq=False` in the source and are excluded from `eqDefined` below. -/
structure Cookie where
  name : String
  value : String
  httponly : Bool := false
  secure : Bool := false
  domain : Option String := none
  samesite : Option SameSitePolicy := none
  path : Option String := none
  expires : Option Instant := none
  max_age : Option Duration := none
  extensions : List (String × Option String) := []
  raw : String := ""
  cookie_type : Option CookieType := none
  received_at : Instant := 0
deriving Repr, DecidableEq

/-- The equality the claims quantify with ("the defined equality, which
excludes `raw`, `received_at` and `cookie_type`", spec §3): every field
except those three.  Note this is not quite the attrs-generated
`Cookie.__eq__` of the source: there only `raw` and `_received_at` carry
`eq=False`, so the generated equality also compares `_type` — that source
equality is modelled separately as `pyCookieEq` below. -/
def eqDefined (a b : Cookie) : Bool :=
  decide (a.name = b.name ∧ a.value = b.value ∧ a.httponly = b.httponly ∧
    a.secure = b.secure ∧ a.domain = b.domain ∧ a.samesite = b.samesite ∧
    a.path = b.path ∧ a.expires = b.expires ∧ a.max_age = b.max_age ∧
    a.extensions = b.extensions)

/-- The attrs-generated `Cookie.__eq__` of the source: every field except
`raw` and `_received_at`, the only two declared `eq=False` — in particular
`_type` (here `cookie_type`) is compared.  (The `extensions` dict compares
order-insensitively in Python; the association-list model compares
order-sensitively, which no claim observes since parsed extensions are
always empty.) -/
def pyCookieEq (a b : Cookie) : Bool :=
  decide (a.name = b.name ∧ a.value = b.value ∧ a.httponly = b.httponly ∧
    a.secure = b.secure ∧ a.domain = b.domain ∧ a.samesite = b.samesite ∧
    a.path = b.path ∧ a.expires = b.expires ∧ a.max_age = b.max_age ∧
    a.extensions = b.extensions ∧ a.cookie_type = b.cookie_type)

/-- `Cookie.expired(now)` (the `now=None` default is out of scope: the claims
always pass `now`).  Max-Age takes precedence over Expires; a cookie with
neither never expires. -/
def Cookie.expired (c : Cookie) (now : Instant) : Bool :=
  match c.max_age with
  | some ma => decide (c.received_at + ma < now)
  | none =>
    match c.expires with
    | some e => decide (e < now)
    | none => false

/-! ## policy.py : DomainMatching, DomainPolicy, Policy -/

/-- `moreos.policy.DomainMatching`, an `IntFlag` bitmask, modelled as three
independent booleans. -/
structure DomainMatching where
  strict_equality : Bool
  reject_ipaddress : Bool
  reject_wellknown_public_suffixes_as_domain : Bool
deriving Repr, DecidableEq

/-- `moreos.policy._wellknown_public_suffixes`. -/
def wellknownPublicSuffixes : List String :=
  ["com", "org", "edu", "co", "co.uk", "io", "net", "int", "gov", "mil", "ly"]

/-- Decimal digit run to a number (used by the IPv4 model below and by the
Max-Age converter). -/
def digitsToNat (l : List Char) : Nat :=
  l.foldl (fun acc c => acc * 10 + (c.toNat - 48)) 0

/-- One dotted-quad part of an IPv4 literal as the Python `ipaddress` module
accepts it: 1–3 decimal digits, value ≤ 255, no superfluous leading zero. -/
def isIPv4Part (g : List Char) : Bool :=
  g.length ≥ 1 && g.length ≤ 3 && g.all Char.isDigit &&
    digitsToNat g ≤ 255 && !(g.length > 1 && g.head? = some '0')

/-- Split a character list on a separator character (Python `str.split`). -/
def splitOnChar (sep : Char) : List Char → List (List Char)
  | [] => [[]]
  | c :: r =>
    let rest := splitOnChar sep r
    if c = sep then [] :: rest
    else
      match rest with
      | g :: gs => (c :: g) :: gs
      | [] => [[c]]

/-- Modelled from the Python `ipaddress` stdlib: textual IPv4 validity. -/
def isIPv4 (l : List Char) : Bool :=
  let parts := splitOnChar '.' l
  parts.length = 4 && parts.all isIPv4Part

/-- Hex digit test for the IPv6 model. -/
def isHexDigitChar (c : Char) : Bool :=
  c.isDigit || ('a' ≤ c && c ≤ 'f') || ('A' ≤ c && c ≤ 'F')

/-- Modelled from the Python `ipaddress` stdlib: textual IPv6 validity,
restricted to plain hex-group forms (embedded-IPv4 tails and zone ids are not
modelled; no claim exercises IPv6 inputs).  Groups are 1–4 hex digits; one
`::` compression, possibly leading or trailing, is allowed. -/
def isIPv6 (l : List Char) : Bool :=
  if !l.all (fun c => isHexDigitChar c || c = ':') then false
  else
    let gs := splitOnChar ':' l
    let n := gs.length
    let okG := fun (g : List Char) => g.length ≥ 1 && g.length ≤ 4
    let emptyIdx := (List.range n).filter (fun i => (gs.getD i [' ']).isEmpty)
    if n < 3 || n > 9 then false
    else if !((gs.filter (fun g => !g.isEmpty)).all okG) then false
    else
      match emptyIdx with
      | [] => n = 8
      | [i] => 0 < i && i < n - 1 && n ≤ 8
      | [i, j] =>
        (i = 0 && j = 1 && n ≥ 3 && n ≤ 9) ||
          (i = n - 2 && j = n - 1 && n ≥ 3 && n ≤ 9)
      | [i, j, k] => i = 0 && j = 1 && k = 2 && n = 3
      | _ => false

/-- `moreos.policy._is_ipaddress`: strip surrounding brackets, then try to
parse as an IPv4 or IPv6 literal. -/
def is_ipaddress (domain : List Char) : Bool :=
  let stripped :=
    ((domain.dropWhile (fun c => c = '[' || c = ']')).reverse.dropWhile
        (fun c => c = '[' || c = ']')).reverse
  isIPv4 stripped || isIPv6 stripped

/-- `moreos.policy.DomainPolicy`. -/
structure DomainPolicy where
  block_list : Option (List String) := none
  allow_list : Option (List String) := none
  matching : DomainMatching :=
    { strict_equality := true, reject_ipaddress := true,
      reject_wellknown_public_suffixes_as_domain := true }
deriving Repr, DecidableEq

/-- `DomainPolicy()` with every field defaulted (what `Policy.default()`
builds). -/
def DomainPolicy.default : DomainPolicy := {}

/-- `DomainPolicy.match(request_host, cookie_domain)`.  The result is
`none` where the Python code raises: `request_host.index(cookie_domain)`
raises `ValueError` when `cookie_domain` does not occur in `request_host`.
The nested `if`s mirror the short-circuit order of the source. -/
def DomainPolicy.match (p : DomainPolicy) (request_host cookie_domain : String) :
    Option Bool :=
  let rh := lowerL (chars request_host)
  let cd := lowerL (chars cookie_domain)
  if rh = cd then some true
  else if p.matching.strict_equality then some false
  else if p.matching.reject_wellknown_public_suffixes_as_domain &&
      wellknownPublicSuffixes.contains (ofChars cd) then some false
  else if rh = [] then some false
  else if rh.head? = some '.' then some false
  else if rh.getLast? = some '.' then some false
  else if is_ipaddress rh && p.matching.reject_ipaddress then some false
  else
    match strIndexOf cd rh with
    | none => none
    | some index =>
      if index = 0 || !lStartsWith cd ['.'] then some false
      else if cd = [] then some false
      else if cd.drop 1 = [] then some false
      else if cd.get? 1 = some '.' then some false
      else if cd.getLast? = some '.' then some false
      else if is_ipaddress (cd.drop 1) && p.matching.reject_ipaddress then
        some false
      else some true

/-! ## parsing.py and cookie.parse : the cookie grammar

`parsing.ABNF` composes one big regular expression for `Set-Cookie` strings
and one small one for `Cookie` strings, and `cookie.parse` applies them with
`re.match` / `re.finditer`.  Neither pattern is anchored at its end, so the
continuation of every quantifier and of every alternation inside them can
always succeed; under Python's leftmost, greedy, ordered-alternation
backtracking semantics the returned match is therefore exactly the one found
by a single greedy left-to-right pass that commits, at each position, to the
first alternative that matches there.  (The only constructs needing local
back-off are the 1-2 digit day of `rfc1123_date`, the trailing let-dig of
`label`, and the final label of `subdomain`; the functions below perform
those give-backs explicitly.)  The matchers in this section implement that
pass; loops carry a `Nat` fuel argument that callers instantiate with more
than the length of the input, which a loop that consumes at least one
character per iteration can never exhaust. -/

/-- RFC 2616 CTL characters (pattern fragment `ABNF.ctl`). -/
def isCtl (c : Char) : Bool := c = '\x7f' || c.toNat ≤ 0x1f

/-- Python regex `\s` on `str` patterns: ASCII whitespace, the four
information-separator controls, and the Unicode space characters. -/
def isSpaceChar (c : Char) : Bool :=
  c = ' ' || c = '\t' || c = '\n' || c = '\r' || c = '\x0b' || c = '\x0c' ||
  c = '\x1c' || c = '\x1d' || c = '\x1e' || c = '\x1f' ||
  c = '\x85' || c = '\xa0' || c.toNat = 0x1680 ||
  (0x2000 ≤ c.toNat && c.toNat ≤ 0x200a) || c.toNat = 0x2028 ||
  c.toNat = 0x2029 || c.toNat = 0x202f || c.toNat = 0x205f || c.toNat = 0x3000

/-- RFC 2616 separators (pattern fragment `ABNF.separators`). -/
def isSeparator (c : Char) : Bool :=
  (['[', ']', '(', ')', '<', '>', '@', ',', ';', ':', '\\', '"', '/', '?',
    '=', '\x7b', '\x7d'].contains c) || isSpaceChar c

/-- `ABNF.token`: one character of `[^ctl separators]`. -/
def isTokenChar (c : Char) : Bool := !isCtl c && !isSeparator c

/-- `ABNF.cookie_octet` (RFC 6265 §4.1.1). -/
def isCookieOctet (c : Char) : Bool :=
  let n := c.toNat
  n = 0x21 || (0x23 ≤ n && n ≤ 0x2b) || (0x2d ≤ n && n ≤ 0x3a) ||
    (0x3c ≤ n && n ≤ 0x5b) || (0x5d ≤ n && n ≤ 0x7e)

/-- `ABNF._any_char_except_ctls_or_semicolon`: one character of `[^;ctl]`
(used by `path_value` and `extension_av`). -/
def isExtensionChar (c : Char) : Bool := c ≠ ';' && !isCtl c

/-- `ABNF.let_dig`: `[A-Za-z0-9]`. -/
def isLetDig (c : Char) : Bool :=
  c.isDigit || ('A' ≤ c && c ≤ 'Z') || ('a' ≤ c && c ≤ 'z')

/-- `ABNF.let_dig_hyp`: `[A-Za-z0-9-]`. -/
def isLdh (c : Char) : Bool := isLetDig c || c = '-'

/-- Sequencing of matchers: continue with the rest on success, fail on
failure (`Option.bind`, kept as its own definition so proofs can rewrite
with its characterization). -/
def obind {α β : Type} (x : Option α) (f : α → Option β) : Option β :=
  match x with
  | none => none
  | some a => f a

/-- Consume a literal character sequence. -/
def eatLit : List Char → List Char → Option (List Char)
  | [], s => some s
  | _ :: _, [] => none
  | c :: l, d :: s => if d = c then eatLit l s else none

/-- Ordered alternation over literal strings (`wkday`). -/
def eatAlts (alts : List (List Char)) (s : List Char) : Option (List Char) :=
  match alts with
  | [] => none
  | a :: rest =>
    match eatLit a s with
    | some r => some r
    | none => eatAlts rest s

/-- Ordered alternation over literal strings returning the 1-based index of
the alternative taken (`month`). -/
def eatAltsIdx (i : Nat) (alts : List (List Char)) (s : List Char) :
    Option (Nat × List Char) :=
  match alts with
  | [] => none
  | a :: rest =>
    match eatLit a s with
    | some r => some (i, r)
    | none => eatAltsIdx (i + 1) rest s

/-- The `ABNF.wkday` alternatives. -/
def wkdays : List (List Char) :=
  [chars "Mon", chars "Tue", chars "Wed", chars "Thu", chars "Fri",
   chars "Sat", chars "Sun"]

/-- The `ABNF.month` alternatives, in pattern order (so the index returned by
`eatAltsIdx 1 months` is the month number). -/
def months : List (List Char) :=
  [chars "Jan", chars "Feb", chars "Mar", chars "Apr", chars "May",
   chars "Jun", chars "Jul", chars "Aug", chars "Sep", chars "Oct",
   chars "Nov", chars "Dec"]

/-- Numeric value of a two-digit run. -/
def d2val (a b : Char) : Nat := 10 * (a.toNat - 48) + (b.toNat - 48)

/-- `[0-9]{1,2} ` of `ABNF.date1`: the greedy 1-2 digit day together with the
space after it (greedy two digits force the next character to be the space;
with one digit the second character must already be the space). -/
def matchDaySp : List Char → Option (Nat × List Char)
  | a :: b :: c :: r =>
    if a.isDigit then
      if b.isDigit then if c = ' ' then some (d2val a b, r) else none
      else if b = ' ' then some (a.toNat - 48, c :: r)
      else none
    else none
  | [a, b] => if a.isDigit && b = ' ' then some (a.toNat - 48, []) else none
  | _ => none

/-- Exactly two digits (`[0-9]{2}` of `ABNF.time`). -/
def eatDigits2 : List Char → Option (Nat × List Char)
  | a :: b :: r => if a.isDigit && b.isDigit then some (d2val a b, r) else none
  | _ => none

/-- Exactly four digits (the year of `ABNF.date1`). -/
def eatDigits4 : List Char → Option (Nat × List Char)
  | a :: b :: c :: d :: r =>
    if a.isDigit && b.isDigit && c.isDigit && d.isDigit then
      some (d2val a b * 100 + d2val c d, r)
    else none
  | _ => none

/-- The numeric fields captured by an `ABNF.rfc1123_date` match. -/
structure DateParts where
  day : Nat
  month : Nat
  year : Nat
  hour : Nat
  minute : Nat
  second : Nat
deriving Repr, DecidableEq

/-- `ABNF.rfc1123_date`: `wkday ", " date1 " " time " GMT"`. -/
def matchRfc1123 (s : List Char) : Option (DateParts × List Char) :=
  obind (eatAlts wkdays s) fun r1 =>
  obind (eatLit (chars ", ") r1) fun r2 =>
  obind (matchDaySp r2) fun dayr =>
  obind (eatAltsIdx 1 months dayr.2) fun monr =>
  obind (eatLit [' '] monr.2) fun r5 =>
  obind (eatDigits4 r5) fun yearr =>
  obind (eatLit [' '] yearr.2) fun r7 =>
  obind (eatDigits2 r7) fun hourr =>
  obind (eatLit [':'] hourr.2) fun r9 =>
  obind (eatDigits2 r9) fun minr =>
  obind (eatLit [':'] minr.2) fun r11 =>
  obind (eatDigits2 r11) fun secr =>
  obind (eatLit (chars " GMT") secr.2) fun r13 =>
  some (⟨dayr.1, monr.1, yearr.1, hourr.1, minr.1, secr.1⟩, r13)

/-- Strip the hyphens a greedy `ldh_str` must give back so that `label` ends
in a let-dig. -/
def dropTrailingHyphens (l : List Char) : List Char :=
  (l.reverse.dropWhile (fun c => c = '-')).reverse

/-- `ABNF.label`: `[let_dig](?:(?:[let_dig_hyp]+)?[let_dig])?` — the longest
run of let-dig-hyphen characters that starts and ends with a let-dig. -/
def matchLabel : List Char → Option (List Char × List Char)
  | [] => none
  | c :: r =>
    if isLetDig c then
      let run := r.takeWhile isLdh
      let keep := dropTrailingHyphens run
      some (c :: keep, r.drop keep.length)
    else none

/-- The `(?:label\.)*(?:label)` tail of `ABNF.subdomain`: greedy dotted
labels; when no final label follows the last dot, the star gives its last
iteration back and that iteration's label becomes the final one. -/
def matchLabels : Nat → List Char → Option (List Char × List Char)
  | 0, _ => none
  | fuel + 1, s =>
    match matchLabel s with
    | none => none
    | some (lab, rest) =>
      match rest with
      | '.' :: r2 =>
        match matchLabels fuel r2 with
        | some (more, r3) => some (lab ++ '.' :: more, r3)
        | none => some (lab, rest)
      | _ => some (lab, rest)

/-- `ABNF.subdomain`: `\.?(?:label\.)*(?:label)`.  (If labels fail after a
consumed leading dot, re-trying without the dot fails too — the dot is not a
let-dig — so no give-back is needed for `\.?`.) -/
def matchSubdomain (s : List Char) : Option (List Char × List Char) :=
  match s with
  | '.' :: r =>
    match matchLabels (r.length + 1) r with
    | some (d, rest) => some ('.' :: d, rest)
    | none => none
  | _ => matchLabels (s.length + 1) s

/-- `ABNF.samesite_value`: `(?:Strict|Lax|None)`. -/
def matchSamesiteValue (s : List Char) : Option (List Char × List Char) :=
  match eatLit (chars "Strict") s with
  | some r => some (chars "Strict", r)
  | none =>
    match eatLit (chars "Lax") s with
    | some r => some (chars "Lax", r)
    | none =>
      match eatLit (chars "None") s with
      | some r => some (chars "None", r)
      | none => none

/-- One alternative of `ABNF.cookie_av`, as captured. -/
inductive Av where
  | expiresAv (d : DateParts) (text : List Char)
  | maxAgeAv (digits : List Char)
  | domainAv (d : List Char)
  | pathAv (p : List Char)
  | secureAv
  | httponlyAv
  | samesiteAv (v : List Char)
  | extensionAv (text : List Char)
deriving Repr, DecidableEq

/-- `ABNF.expires_av`: `Expires=` followed by `rfc1123_date`; the capture is
the matched date text, recorded here both structurally and verbatim. -/
def matchExpiresAv (s : List Char) : Option (Av × List Char) :=
  obind (eatLit (chars "Expires=") s) fun r =>
  obind (matchRfc1123 r) fun dr =>
  some (.expiresAv dr.1 (r.take (r.length - dr.2.length)), dr.2)

/-- `ABNF.max_age_av`: `Max-Age=[1-9][0-9]*`. -/
def matchMaxAgeAv (s : List Char) : Option (Av × List Char) :=
  obind (eatLit (chars "Max-Age=") s) fun r =>
  match r with
  | c :: r2 =>
    if '1' ≤ c && c ≤ '9' then
      some (.maxAgeAv (c :: r2.takeWhile Char.isDigit),
        r2.dropWhile Char.isDigit)
    else none
  | [] => none

/-- `ABNF.domain_av`: `Domain=` followed by `subdomain`. -/
def matchDomainAv (s : List Char) : Option (Av × List Char) :=
  obind (eatLit (chars "Domain=") s) fun r =>
  obind (matchSubdomain r) fun dr =>
  some (.domainAv dr.1, dr.2)

/-- `ABNF.path_av`: `Path=[^;ctl]+`. -/
def matchPathAv (s : List Char) : Option (Av × List Char) :=
  obind (eatLit (chars "Path=") s) fun r =>
  if (r.takeWhile isExtensionChar).isEmpty then none
  else some (.pathAv (r.takeWhile isExtensionChar),
    r.dropWhile isExtensionChar)

/-- `ABNF.secure_av`: the literal `Secure`. -/
def matchSecureAv (s : List Char) : Option (Av × List Char) :=
  (eatLit (chars "Secure") s).map (fun r => (.secureAv, r))

/-- `ABNF.httponly_av`: the literal `HttpOnly`. -/
def matchHttponlyAv (s : List Char) : Option (Av × List Char) :=
  (eatLit (chars "HttpOnly") s).map (fun r => (.httponlyAv, r))

/-- `ABNF.samesite_av`: `SameSite=(?:Strict|Lax|None)`. -/
def matchSamesiteAv (s : List Char) : Option (Av × List Char) :=
  obind (eatLit (chars "SameSite=") s) fun r =>
  obind (matchSamesiteValue r) fun vr =>
  some (.samesiteAv vr.1, vr.2)

/-- `ABNF.extension_av`: `[^;ctl]+`, consumed without any capture group. -/
def matchExtensionAv (s : List Char) : Option (Av × List Char) :=
  let t := s.takeWhile isExtensionChar
  if t.isEmpty then none
  else some (.extensionAv t, s.dropWhile isExtensionChar)

/-- `ABNF.cookie_av`: the ordered alternation of the attribute patterns, in
source order. -/
def cookieAv (s : List Char) : Option (Av × List Char) :=
  match matchExpiresAv s with
  | some x => some x
  | none =>
  match matchMaxAgeAv s with
  | some x => some x
  | none =>
  match matchDomainAv s with
  | some x => some x
  | none =>
  match matchPathAv s with
  | some x => some x
  | none =>
  match matchSecureAv s with
  | some x => some x
  | none =>
  match matchHttponlyAv s with
  | some x => some x
  | none =>
  match matchSamesiteAv s with
  | some x => some x
  | none => matchExtensionAv s

/-- The named captures of a `set_cookie_string` match, i.e. the model of
`re.Match.groupdict()` for it.  A group matched in several loop iterations
holds the last capture, which the field updates of `applyAv` reproduce.
`expires` additionally records the structured date for the converter;
`expires_text` is the verbatim capture. -/
structure SCGroups where
  name : List Char
  value : List Char
  httponly : Option (List Char) := none
  secure : Option (List Char) := none
  domain : Option (List Char) := none
  path : Option (List Char) := none
  expires : Option DateParts := none
  expires_text : Option (List Char) := none
  max_age : Option (List Char) := none
  samesite : Option (List Char) := none
deriving Repr, DecidableEq

/-- Record one matched `cookie_av` in the group dictionary.  The extension
alternative has no capture group, so it changes nothing. -/
def applyAv (g : SCGroups) : Av → SCGroups
  | .expiresAv d t => { g with expires := some d, expires_text := some t }
  | .maxAgeAv ds => { g with max_age := some ds }
  | .domainAv d => { g with domain := some d }
  | .pathAv p => { g with path := some p }
  | .secureAv => { g with secure := some (chars "Secure") }
  | .httponlyAv => { g with httponly := some (chars "HttpOnly") }
  | .samesiteAv v => { g with samesite := some v }
  | .extensionAv _ => g

/-- The `(?:; cookie_av)*` loop of `ABNF.set_cookie_string`: greedy, stopping
at the first position where `"; "` plus an attribute no longer matches. -/
def avLoop : Nat → List Char → SCGroups → SCGroups × List Char
  | 0, s, g => (g, s)
  | fuel + 1, s, g =>
    match s with
    | ';' :: ' ' :: r =>
      match cookieAv r with
      | some (av, rest) => avLoop fuel rest (applyAv g av)
      | none => (g, s)
    | _ => (g, s)

/-- `re.match` of `ABNF.set_cookie_string_re`: anchored at the start only.
Returns the captures and the unconsumed suffix, or `none` when no prefix of
the input matches. -/
def matchSetCookie (s : List Char) : Option (SCGroups × List Char) :=
  let nm := s.takeWhile isTokenChar
  let r1 := s.dropWhile isTokenChar
  if nm.isEmpty then none
  else
    match r1 with
    | '=' :: r2 =>
      let v := r2.takeWhile isCookieOctet
      let r3 := r2.dropWhile isCookieOctet
      some (avLoop (r3.length + 1) r3 { name := nm, value := v })
    | _ => none

/-- `cookie._expected_cookie_attributes`. -/
def expectedCookieAttributes : List String :=
  ["name", "value", "httponly", "secure", "domain", "samesite", "path",
   "expires", "max_age"]

/-- `m.groupdict()` for a `set_cookie_string` match: the nine named groups of
the pattern, in definition order. -/
def groupdict (g : SCGroups) : List (String × Option String) :=
  [("name", some (ofChars g.name)), ("value", some (ofChars g.value)),
   ("expires", g.expires_text.map ofChars), ("max_age", g.max_age.map ofChars),
   ("domain", g.domain.map ofChars), ("path", g.path.map ofChars),
   ("secure", g.secure.map ofChars), ("httponly", g.httponly.map ofChars),
   ("samesite", g.samesite.map ofChars)]

/-- The extensions dict built in `parse`: every groupdict entry whose key is
not a recognized cookie attribute. -/
def extensionsOf (g : SCGroups) : List (String × Option String) :=
  (groupdict g).filter (fun kv => !expectedCookieAttributes.contains kv.1)

/-- Gregorian month lengths, for the `datetime` validity check inside the
`dateutil` model. -/
def isLeapYear (y : Nat) : Bool := y % 4 = 0 && (y % 100 ≠ 0 || y % 400 = 0)

/-- Days in a month of a year (0 for a month number outside 1..12). -/
def daysInMonth (y m : Nat) : Nat :=
  if m = 2 then (if isLeapYear y then 29 else 28)
  else if m = 4 || m = 6 || m = 9 || m = 11 then 30
  else if 1 ≤ m && m ≤ 12 then 31
  else 0

/-- Modelled from `dateutil.parser.parse` applied to the RFC-1123-shaped text
the `Expires` capture admits: the weekday name is ignored, and the numeric
fields must form a real calendar date and time of day — otherwise `dateutil`
(via `datetime`) raises `ValueError`, modelled as `none`.  The instant
returned on success is an injective encoding of the UTC datetime; the claims
only ever compare instants, never inspect absolute values. -/
def dateutilParseRfc1123 (d : DateParts) : Option Instant :=
  if 1 ≤ d.year && d.year ≤ 9999 && 1 ≤ d.month && d.month ≤ 12 &&
      1 ≤ d.day && d.day ≤ daysInMonth d.year d.month &&
      d.hour ≤ 23 && d.minute ≤ 59 && d.second ≤ 59 then
    some (Int.ofNat
      (((((d.year * 12 + d.month) * 31 + d.day) * 24 + d.hour) * 60 +
          d.minute) * 60 + d.second))
  else none

/-- Modelled from `_max_age_converter` on the string the `Max-Age` capture
admits: `int(value, 10)` (total on a digit run) followed by
`datetime.timedelta(seconds=...)`, which normalizes to days and raises
`OverflowError` when the day count exceeds 999999999 — i.e. for any second
count above `999999999 * 86400 + 86399`.  The raise is modelled as
`none`. -/
def max_age_converter (digits : List Char) : Option Duration :=
  let n := digitsToNat digits
  if n ≤ 999999999 * 86400 + 86399 then some (Int.ofNat n) else none

/-- The `expires` conversion step of constructing the parsed cookie
(`_expires_converter` on the capture): absent capture converts to `None`; a
captured date that is not a real calendar date/time makes
`dateutil.parser.parse` raise `ValueError`, which escapes (`.error`).  The
attrs converters run in field order, so this runs before the Max-Age
conversion. -/
def convertExpires (g : SCGroups) : Except Unit (Option Instant) :=
  match g.expires with
  | none => .ok none
  | some d =>
    match dateutilParseRfc1123 d with
    | none => .error ()
    | some inst => .ok (some inst)

/-- The `max_age` conversion step of constructing the parsed cookie
(`_max_age_converter` on the capture): absent capture converts to `None`; a
captured value beyond the `timedelta` bound makes the constructor raise
`OverflowError`, which escapes (`.error`). -/
def convertMaxAge (g : SCGroups) : Except Unit (Option Duration) :=
  match g.max_age with
  | none => .ok none
  | some ds =>
    match max_age_converter ds with
    | none => .error ()
    | some dur => .ok (some dur)

/-- The `Cookie(...)` construction in the `Set-Cookie` branch of `parse`,
after the attrs converters have run; `expires` and `max_age` are the
already-converted values (their conversions' failures are handled at the
call site, in converter order). -/
def serverCookie (g : SCGroups) (expires : Option Instant)
    (max_age : Option Duration) (raw : String) (now : Instant) : Cookie :=
  { name := ofChars g.name
    value := ofChars g.value
    httponly := decide (g.httponly = some (chars "HttpOnly"))
    secure := decide (g.secure = some (chars "Secure"))
    domain := g.domain.map ofChars
    samesite := SameSitePolicy.from_string g.samesite
    path := g.path.map ofChars
    expires := expires
    max_age := max_age
    extensions := extensionsOf g
    raw := raw
    cookie_type := some .server
    received_at := now }

/-- Python `s.rstrip(chars)`: drop every trailing character from the set. -/
def pyRstrip (l strip : List Char) : List Char :=
  (l.reverse.dropWhile (fun c => strip.contains c)).reverse

/-- One attempt of `ABNF.client_cookie_string_re` at the current position:
`(?:(token)=(cookie_value))(?:; )?`.  Returns the two captures, the full
matched text (`m.group()`), and the rest of the input. -/
def matchClientPair (s : List Char) :
    Option ((List Char × List Char × List Char) × List Char) :=
  let nm := s.takeWhile isTokenChar
  let r1 := s.dropWhile isTokenChar
  if nm.isEmpty then none
  else
    match r1 with
    | '=' :: r2 =>
      let v := r2.takeWhile isCookieOctet
      let r3 := r2.dropWhile isCookieOctet
      match r3 with
      | ';' :: ' ' :: r4 => some ((nm, v, nm ++ '=' :: v ++ [';', ' ']), r4)
      | _ => some ((nm, v, nm ++ '=' :: v), r3)
    | _ => none

/-- The `Cookie(...)` construction in the `Cookie` branch of `parse`: only
name, value, `raw` (the match with any trailing `"; "` stripped) and the
client type are set. -/
def clientCookie (nm v grp : List Char) (now : Instant) : Cookie :=
  { name := ofChars nm
    value := ofChars v
    raw := ofChars (pyRstrip grp [';', ' '])
    cookie_type := some .client
    received_at := now }

/-- `re.finditer` of `ABNF.client_cookie_string_re`: scan left to right,
emitting a cookie at each match and resuming after it, advancing one
character where no match starts. -/
def scanClient : Nat → List Char → Instant → List Cookie
  | 0, _, _ => []
  | fuel + 1, s, now =>
    match s with
    | [] => []
    | _ :: tail =>
      match matchClientPair s with
      | some ((nm, v, grp), rest) =>
        clientCookie nm v grp now :: scanClient fuel rest now
      | none => scanClient fuel tail now

/-- `moreos.cookie.parse(cookie_header_type, cookie_string)`.  `now` stands
for the wall-clock `_received_at` default of the cookies constructed.  The
`.error` result marks an exception escaping the Python function; two can:
the `ValueError` raised by `dateutil.parser.parse` inside
`_expires_converter` on a shape-valid Expires capture that is not a real
date, and the `OverflowError` raised by `datetime.timedelta` inside
`_max_age_converter` on a Max-Age capture beyond the timedelta bound.  The
Expires conversion runs first (attrs converters run in field order). -/
def parse (cookie_header_type cookie_string : String) (now : Instant) :
    Except Unit (List Cookie) :=
  match CookieType.from_string (some cookie_header_type) with
  | some .server =>
    match matchSetCookie (chars cookie_string) with
    | none => .ok []
    | some (g, _) =>
      match convertExpires g with
      | .error e => .error e
      | .ok exp =>
        match convertMaxAge g with
        | .error e => .error e
        | .ok ma => .ok [serverCookie g exp ma cookie_string now]
  | some .client =>
    .ok (scanClient ((chars cookie_string).length + 1) (chars cookie_string) now)
  | none => .ok []

/-- `moreos.policy.Policy` (the HTTP-request type parameter is irrelevant to
the modelled behaviour; requests are modelled below as a URL container). -/
structure Request where
  url : String
deriving Repr, DecidableEq

/-- `moreos.policy.Policy`. -/
structure Policy where
  domain : DomainPolicy
deriving Repr, DecidableEq

/-- `Policy.default()`. -/
def Policy.default : Policy := { domain := DomainPolicy.default }

/-- `Policy.match(cookie, request)`: the body of the source method is a bare
`return False`. -/
def Policy.match (_p : Policy) (_cookie : Cookie) (_request : Request) : Bool :=
  false

/-! ## storage.py : InMemory backend and Storage wrapper

The `defaultdict(set)` of `InMemory._cookies` is modelled as an
insertion-ordered association list from keys to buckets, each bucket an
insertion-ordered list.  The operations that put a cookie *into* a set —
`set.add` in `save`, `set.discard` in `remove` — first hash the cookie, and
the attrs-generated `__hash__` of the frozen `Cookie` class (generated
because `eq=True` and `frozen=True`) hashes the tuple of all eq-fields,
`extensions` included; `hash` of a Python `dict` raises `TypeError`, so
those operations raise for every cookie and are modelled as `Except`.  The
read-only `list` never hashes and stays pure.  (Python's type annotation
notwithstanding, the `_cookies` mapping is an ordinary constructor argument
and buckets need only be iterable for `list`, so arbitrary pre-populated
states are expressible even though `save` can never build one.)  Set
iteration order is arbitrary in Python, so every claim settled against this
model is order-insensitive (memberships, lengths, or singleton results). -/

/-- `moreos.storage.InMemory`. -/
structure InMemory where
  cookies : List (String × List Cookie) := []
deriving Repr, DecidableEq

/-- `InMemory._key(domain, name)`. -/
def InMemory.key (domain name : String) : String := domain ++ "::" ++ name

/-- `InMemory._key_for(cookie)`: the cookie's domain (empty when unset) and
name. -/
def InMemory.key_for (c : Cookie) : String :=
  InMemory.key (c.domain.getD "") c.name

/-- The bucket stored under a key (empty when the key is absent). -/
def InMemory.bucket (m : InMemory) (k : String) : List Cookie :=
  ((m.cookies.find? (fun kv => kv.1 = k)).map (fun kv => kv.2)).getD []

/-- Store a bucket under a key, appending the key when absent (the mutation
a `defaultdict` access followed by an in-place set update performs). -/
def InMemory.writeBucket (m : InMemory) (k : String) (b : List Cookie) :
    InMemory :=
  if m.cookies.any (fun kv => kv.1 = k) then
    ⟨m.cookies.map (fun kv => if kv.1 = k then (kv.1, b) else kv)⟩
  else ⟨m.cookies ++ [(k, b)]⟩

/-- Modelled from the attrs-generated `Cookie.__hash__` of the frozen class:
it hashes the tuple of all eq-fields — the `extensions` dict included — and
`hash` of a Python `dict` raises `TypeError`, so hashing any `Cookie`
raises, unconditionally.  Only the raised exception is observable by the
code under verification, so the model carries no hash value. -/
def cookieHash (_c : Cookie) : Except Unit Unit := .error ()

/-- `set.add(cookie)`: CPython hashes the element first, which raises for
every Cookie (see `cookieHash`); it would otherwise deduplicate by the
attrs `__eq__`, i.e. `pyCookieEq`. -/
def setAdd (bucket : List Cookie) (c : Cookie) : Except Unit (List Cookie) :=
  match cookieHash c with
  | .error e => .error e
  | .ok _ =>
    .ok (if bucket.any (fun d => pyCookieEq d c) then bucket
      else bucket ++ [c])

/-- One iteration of `InMemory.save`: `self._cookies[key].add(cookie)` — the
`set.add` raises `TypeError` before any cookie is stored.  (In Python the
defaultdict lookup has by then already created an empty bucket under the
key; that side effect of the failed call is not modelled, as no claim
observes the state the escaped exception leaves behind.) -/
def InMemory.save1 (m : InMemory) (c : Cookie) : Except Unit InMemory :=
  let k := InMemory.key_for c
  match setAdd (m.bucket k) c with
  | .error e => .error e
  | .ok b => .ok (m.writeBucket k b)

/-- `InMemory.save(cookies)`: save each cookie in turn; the first raise
escapes the loop. -/
def InMemory.save (m : InMemory) (cs : List Cookie) : Except Unit InMemory :=
  match cs with
  | [] => .ok m
  | c :: rest =>
    match InMemory.save1 m c with
    | .error e => .error e
    | .ok m' => InMemory.save m' rest

/-- `InMemory.remove(cookie)`: `self._cookies[key].discard(cookie)` —
`set.discard` hashes its argument first, raising `TypeError` for every
cookie (see `cookieHash`); it would otherwise drop the `pyCookieEq`-equal
element.  (As in `save1`, the empty bucket the defaultdict access creates
before the raise is not modelled.) -/
def InMemory.remove (m : InMemory) (c : Cookie) : Except Unit InMemory :=
  let k := InMemory.key_for c
  match cookieHash c with
  | .error e => .error e
  | .ok _ =>
    .ok (m.writeBucket k ((m.bucket k).filter (fun d => !pyCookieEq d c)))

/-- `InMemory.list(domain, name, path)`: with a domain, keys are filtered by
`startswith` on `"<domain>::<name-or-empty>"` and every surviving bucket is
filtered by `v.path == path` — including when `path` was not given, in which
case `path` is `None`; without a domain, all cookies are returned
unfiltered.  `list` only iterates the mapping and compares fields; it never
hashes a cookie, so it raises nothing. -/
def InMemory.list (m : InMemory) (domain name path : Option String) :
    List Cookie :=
  let name' := name.getD ""
  match domain with
  | some d =>
    let pattern := InMemory.key d name'
    ((m.cookies.filter (fun kv => lStartsWith (chars kv.1) (chars pattern))).map
        (fun kv => kv.2.filter (fun v => v.path = path))).flatten
  | none => (m.cookies.map (fun kv => kv.2)).flatten

/-- The removal loop of `Storage.purge_expired_cookies`: the backend's
`remove` raises on the first expired cookie it is handed, and the exception
escapes the sweep. -/
def purgeLoop (now : Instant) : List Cookie → InMemory → Except Unit InMemory
  | [], m => .ok m
  | c :: rest, m =>
    if c.expired now then
      match m.remove c with
      | .error e => .error e
      | .ok m' => purgeLoop now rest m'
    else purgeLoop now rest m

/-- `Storage.purge_expired_cookies()`: list every cookie once, then remove
those expired at the single `now` captured at the start of the sweep; when
nothing has expired no `remove` runs and the sweep returns normally. -/
def Storage.purge_expired_cookies (m : InMemory) (now : Instant) :
    Except Unit InMemory :=
  purgeLoop now (m.list none none none) m

/-- `Storage.find(domain, name, path)`: delegate to the backend's `list`. -/
def Storage.find (m : InMemory) (domain : String)
    (name path : Option String := none) : List Cookie :=
  m.list (some domain) name path

/-! ## jar.py : client adapter and Jar -/

/-- Modelled from `urllib.parse.urlparse(...).hostname` for absolute
hierarchical URIs of the form `scheme://netloc/...`: the netloc is the text
between `"://"` and the next `/`, `?` or `#`; the hostname is the netloc with
any `user@` prefix and `:port` suffix removed and surrounding IPv6 brackets
stripped, lowercased, or `None` when empty. -/
def urlHostname (url : String) : Option String :=
  match strIndexOf (chars "://") (chars url) with
  | none => none
  | some i =>
    let rest := (chars url).drop (i + 3)
    let netloc := rest.takeWhile (fun c => !(c = '/' || c = '?' || c = '#'))
    let hostport := (netloc.reverse.takeWhile (fun c => c ≠ '@')).reverse
    let host :=
      if hostport.head? = some '[' then
        (hostport.drop 1).takeWhile (fun c => c ≠ ']')
      else hostport.takeWhile (fun c => c ≠ ':')
    let h := lowerL host
    if h = [] then none else some (ofChars h)

/-- `RequestsAdapter.uri`: the URL of the request. -/
def RequestsAdapter.uri (r : Request) : String := r.url

/-- `ClientAdapterInterface.hostname`: hostname of the parsed request URI. -/
def RequestsAdapter.hostname (r : Request) : Option String :=
  urlHostname (RequestsAdapter.uri r)

/-- `ClientAdapterInterface.effective_hostname`: append `.local` when the
hostname contains no dot (`hostname.find(".") >= 0` otherwise keeps it). -/
def RequestsAdapter.effective_hostname (r : Request) : Option String :=
  match RequestsAdapter.hostname r with
  | none => none
  | some h =>
    if (strIndexOf ['.'] (chars h)).isSome then some h
    else some (ofChars (chars h ++ chars ".local"))

/-- `moreos.jar.Jar` (with the in-memory backend and the requests adapter). -/
structure Jar where
  storage : InMemory
  policy : Policy := Policy.default
deriving Repr, DecidableEq

/-- `Jar.cookies_for(request, purge_first=True)`: the body purges expired
cookies when asked (an exception from the sweep escapes) and then returns
the literal empty list — the stored cookies, the adapter and the policy are
never consulted.  The possibly-purged jar is returned alongside the (always
empty) result to model the mutation of `self.storage`. -/
def Jar.cookies_for (j : Jar) (_request : Request) (purge_first : Bool)
    (now : Instant) : Except Unit (Jar × List Cookie) :=
  if purge_first then
    match Storage.purge_expired_cookies j.storage now with
    | .error e => .error e
    | .ok st => .ok ({ j with storage := st }, [])
  else .ok (j, [])

/-! ## Helper lemmas -/

theorem obind_eq_some {α β : Type} {x : Option α} {f : α → Option β}
    {b : β} : obind x f = some b ↔ ∃ a, x = some a ∧ f a = some b := by
  cases x <;> simp [obind]

theorem takeWhile_append_cons (p : Char → Bool) (xs : List Char) (y : Char)
    (ys : List Char) (h1 : ∀ x ∈ xs, p x = true) (h2 : p y = false) :
    (xs ++ y :: ys).takeWhile p = xs ∧ (xs ++ y :: ys).dropWhile p = y :: ys := by
  constructor
  · rw [List.takeWhile_append_of_pos h1,
      List.takeWhile_cons_of_neg (by simp [h2]), List.append_nil]
  · rw [List.dropWhile_append_of_pos h1,
      List.dropWhile_cons_of_neg (by simp [h2])]

theorem takeWhile_all_eq (p : Char → Bool) (v : List Char)
    (h : ∀ x ∈ v, p x = true) : v.takeWhile p = v ∧ v.dropWhile p = [] := by
  induction v with
  | nil => exact ⟨rfl, rfl⟩
  | cons a l ih =>
    have ha : p a = true := h a (List.mem_cons_self a l)
    have ih' := ih (fun x hx => h x (List.mem_cons_of_mem a hx))
    exact ⟨by rw [List.takeWhile_cons_of_pos ha, ih'.1],
      by rw [List.dropWhile_cons_of_pos ha, ih'.2]⟩

theorem eatLit_suffix : ∀ (lit s r : List Char), eatLit lit s = some r →
    r <:+ s := by
  intro lit
  induction lit with
  | nil =>
    intro s r h
    simp only [eatLit, Option.some.injEq] at h
    exact h ▸ List.suffix_refl s
  | cons c l ih =>
    intro s r h
    cases s with
    | nil => simp [eatLit] at h
    | cons d t =>
      unfold eatLit at h
      split at h
      · exact (ih t r h).trans (List.suffix_cons d t)
      · simp at h

theorem eatAlts_suffix : ∀ (alts : List (List Char)) (s r : List Char),
    eatAlts alts s = some r → r <:+ s := by
  intro alts
  induction alts with
  | nil => intro s r h; simp [eatAlts] at h
  | cons a rest ih =>
    intro s r h
    unfold eatAlts at h
    cases hel : eatLit a s with
    | some r2 =>
      rw [hel] at h
      injection h with h
      subst h
      exact eatLit_suffix a s r2 hel
    | none => rw [hel] at h; exact ih s r h

theorem eatAltsIdx_suffix : ∀ (alts : List (List Char)) (i : Nat)
    (s : List Char) (n : Nat) (r : List Char),
    eatAltsIdx i alts s = some (n, r) → r <:+ s := by
  intro alts
  induction alts with
  | nil => intro i s n r h; simp [eatAltsIdx] at h
  | cons a rest ih =>
    intro i s n r h
    unfold eatAltsIdx at h
    cases hel : eatLit a s with
    | some r2 =>
      rw [hel] at h
      injection h with h
      rw [show r = r2 from congrArg Prod.snd h.symm]
      exact eatLit_suffix a s r2 hel
    | none => rw [hel] at h; exact ih (i + 1) s n r h

theorem matchDaySp_suffix : ∀ (s : List Char) (d : Nat) (r : List Char),
    matchDaySp s = some (d, r) → r <:+ s := by
  intro s d r h
  rcases s with _ | ⟨a, _ | ⟨b, _ | ⟨c, t⟩⟩⟩
  · simp [matchDaySp] at h
  · simp [matchDaySp] at h
  · simp only [matchDaySp] at h
    split at h
    · injection h with h
      rw [show r = [] from congrArg Prod.snd h.symm]
      exact List.nil_suffix
    · simp at h
  · simp only [matchDaySp] at h
    split at h
    · split at h
      · split at h
        · injection h with h
          rw [show r = t from congrArg Prod.snd h.symm]
          exact ⟨[a, b, c], rfl⟩
        · simp at h
      · split at h
        · injection h with h
          rw [show r = c :: t from congrArg Prod.snd h.symm]
          exact ⟨[a, b], rfl⟩
        · simp at h
    · simp at h

theorem eatDigits2_suffix : ∀ (s : List Char) (d : Nat) (r : List Char),
    eatDigits2 s = some (d, r) → r <:+ s := by
  intro s d r h
  rcases s with _ | ⟨a, _ | ⟨b, t⟩⟩
  · simp [eatDigits2] at h
  · simp [eatDigits2] at h
  · simp only [eatDigits2] at h
    split at h
    · injection h with h
      rw [show r = t from congrArg Prod.snd h.symm]
      exact ⟨[a, b], rfl⟩
    · simp at h

theorem eatDigits4_suffix : ∀ (s : List Char) (d : Nat) (r : List Char),
    eatDigits4 s = some (d, r) → r <:+ s := by
  intro s d r h
  rcases s with _ | ⟨a, _ | ⟨b, _ | ⟨c, _ | ⟨e, t⟩⟩⟩⟩
  · simp [eatDigits4] at h
  · simp [eatDigits4] at h
  · simp [eatDigits4] at h
  · simp [eatDigits4] at h
  · simp only [eatDigits4] at h
    split at h
    · injection h with h
      rw [show r = t from congrArg Prod.snd h.symm]
      exact ⟨[a, b, c, e], rfl⟩
    · simp at h

theorem matchRfc1123_suffix : ∀ (s : List Char) (d : DateParts)
    (r : List Char), matchRfc1123 s = some (d, r) → r <:+ s := by
  intro s d r h
  simp only [matchRfc1123, obind_eq_some, Option.some.injEq] at h
  obtain ⟨r1, h1, r2, h2, ⟨day, r3⟩, h3, ⟨mon, r4⟩, h4, r5, h5, ⟨yr, r6⟩, h6,
    r7, h7, ⟨hh, r8⟩, h8, r9, h9, ⟨mi, r10⟩, h10, r11, h11, ⟨sec, r12⟩, h12,
    r13, h13, hfin⟩ := h
  rw [show r = r13 from congrArg Prod.snd hfin.symm]
  exact (eatLit_suffix _ _ _ h13).trans
    ((eatDigits2_suffix _ _ _ h12).trans
    ((eatLit_suffix _ _ _ h11).trans
    ((eatDigits2_suffix _ _ _ h10).trans
    ((eatLit_suffix _ _ _ h9).trans
    ((eatDigits2_suffix _ _ _ h8).trans
    ((eatLit_suffix _ _ _ h7).trans
    ((eatDigits4_suffix _ _ _ h6).trans
    ((eatLit_suffix _ _ _ h5).trans
    ((eatAltsIdx_suffix _ _ _ _ _ h4).trans
    ((matchDaySp_suffix _ _ _ h3).trans
    ((eatLit_suffix _ _ _ h2).trans
    (eatAlts_suffix _ _ _ h1))))))))))))

theorem matchLabel_suffix : ∀ (s lab r : List Char),
    matchLabel s = some (lab, r) → r <:+ s := by
  intro s lab r h
  cases s with
  | nil => simp [matchLabel] at h
  | cons c t =>
    simp only [matchLabel] at h
    split at h
    · injection h with h
      rw [show r = t.drop (dropTrailingHyphens (t.takeWhile isLdh)).length
          from congrArg Prod.snd h.symm]
      exact (List.drop_suffix _ t).trans (List.suffix_cons c t)
    · simp at h

theorem matchLabels_suffix : ∀ (fuel : Nat) (s lab r : List Char),
    matchLabels fuel s = some (lab, r) → r <:+ s := by
  intro fuel
  induction fuel with
  | zero => intro s lab r h; simp [matchLabels] at h
  | succ n ih =>
    intro s lab r h
    cases hL : matchLabel s with
    | none => simp [matchLabels, hL] at h
    | some lr =>
      obtain ⟨lab1, rest⟩ := lr
      simp only [matchLabels, hL] at h
      have hrest := matchLabel_suffix s lab1 rest hL
      split at h
      · rename_i r2
        cases hrec : matchLabels n r2 with
        | some mr =>
          obtain ⟨more, r3⟩ := mr
          rw [hrec] at h
          simp only [Option.some.injEq, Prod.mk.injEq] at h
          obtain ⟨h1, h2⟩ := h
          subst h2
          have hsub : r2 <:+ '.' :: r2 := List.suffix_cons '.' r2
          exact (ih r2 more r3 hrec).trans (hsub.trans hrest)
        | none =>
          rw [hrec] at h
          simp only [Option.some.injEq, Prod.mk.injEq] at h
          obtain ⟨h1, h2⟩ := h
          subst h2
          exact hrest
      · simp only [Option.some.injEq, Prod.mk.injEq] at h
        obtain ⟨h1, h2⟩ := h
        subst h2
        exact hrest

theorem matchSubdomain_suffix : ∀ (s d r : List Char),
    matchSubdomain s = some (d, r) → r <:+ s := by
  intro s d r h
  simp only [matchSubdomain] at h
  split at h
  · rename_i t
    cases hm : matchLabels (t.length + 1) t with
    | none => rw [hm] at h; simp at h
    | some dr =>
      obtain ⟨d1, r1⟩ := dr
      rw [hm] at h
      injection h with h
      rw [show r = r1 from congrArg Prod.snd h.symm]
      exact (matchLabels_suffix _ t d1 r1 hm).trans (List.suffix_cons '.' t)
  · exact matchLabels_suffix _ s d r h

theorem matchSamesiteValue_suffix : ∀ (s v r : List Char),
    matchSamesiteValue s = some (v, r) → r <:+ s := by
  intro s v r h
  simp only [matchSamesiteValue] at h
  cases h1 : eatLit (chars "Strict") s with
  | some r1 =>
    rw [h1] at h
    injection h with h
    rw [show r = r1 from congrArg Prod.snd h.symm]
    exact eatLit_suffix _ _ _ h1
  | none =>
    rw [h1] at h
    cases h2 : eatLit (chars "Lax") s with
    | some r2 =>
      rw [h2] at h
      injection h with h
      rw [show r = r2 from congrArg Prod.snd h.symm]
      exact eatLit_suffix _ _ _ h2
    | none =>
      rw [h2] at h
      cases h3 : eatLit (chars "None") s with
      | some r3 =>
        rw [h3] at h
        injection h with h
        rw [show r = r3 from congrArg Prod.snd h.symm]
        exact eatLit_suffix _ _ _ h3
      | none => rw [h3] at h; simp at h

theorem matchExpiresAv_suffix : ∀ (s : List Char) (av : Av) (r : List Char),
    matchExpiresAv s = some (av, r) → r <:+ s := by
  intro s av r h
  simp only [matchExpiresAv, obind_eq_some, Option.some.injEq] at h
  obtain ⟨r1, h1, ⟨d, rest⟩, h2, hfin⟩ := h
  rw [show r = rest from congrArg Prod.snd hfin.symm]
  exact (matchRfc1123_suffix _ _ _ h2).trans (eatLit_suffix _ _ _ h1)

theorem matchMaxAgeAv_suffix : ∀ (s : List Char) (av : Av) (r : List Char),
    matchMaxAgeAv s = some (av, r) → r <:+ s := by
  intro s av r h
  simp only [matchMaxAgeAv, obind_eq_some] at h
  obtain ⟨r1, h1, h⟩ := h
  cases r1 with
  | nil => simp at h
  | cons c r2 =>
    split at h
    · rename_i cc rr2 heq
      injection heq with hc hr
      subst hc
      subst hr
      split at h
      · injection h with h
        rw [show r = r2.dropWhile Char.isDigit from congrArg Prod.snd h.symm]
        exact ((List.dropWhile_suffix _).trans (List.suffix_cons c r2)).trans
          (eatLit_suffix _ _ _ h1)
      · simp at h
    · simp at h

theorem matchDomainAv_suffix : ∀ (s : List Char) (av : Av) (r : List Char),
    matchDomainAv s = some (av, r) → r <:+ s := by
  intro s av r h
  simp only [matchDomainAv, obind_eq_some, Option.some.injEq] at h
  obtain ⟨r1, h1, ⟨d, rest⟩, h2, hfin⟩ := h
  rw [show r = rest from congrArg Prod.snd hfin.symm]
  exact (matchSubdomain_suffix _ _ _ h2).trans (eatLit_suffix _ _ _ h1)

theorem matchPathAv_suffix : ∀ (s : List Char) (av : Av) (r : List Char),
    matchPathAv s = some (av, r) → r <:+ s := by
  intro s av r h
  simp only [matchPathAv, obind_eq_some] at h
  obtain ⟨r1, h1, h⟩ := h
  split at h
  · simp at h
  · injection h with h
    rw [show r = r1.dropWhile isExtensionChar from congrArg Prod.snd h.symm]
    exact (List.dropWhile_suffix _).trans (eatLit_suffix _ _ _ h1)

theorem matchSecureAv_suffix : ∀ (s : List Char) (av : Av) (r : List Char),
    matchSecureAv s = some (av, r) → r <:+ s := by
  intro s av r h
  simp only [matchSecureAv] at h
  simp only [Option.map_eq_some'] at h
  obtain ⟨r1, h1, hfin⟩ := h
  rw [show r = r1 from congrArg Prod.snd hfin.symm]
  exact eatLit_suffix _ _ _ h1

theorem matchHttponlyAv_suffix : ∀ (s : List Char) (av : Av) (r : List Char),
    matchHttponlyAv s = some (av, r) → r <:+ s := by
  intro s av r h
  simp only [matchHttponlyAv] at h
  simp only [Option.map_eq_some'] at h
  obtain ⟨r1, h1, hfin⟩ := h
  rw [show r = r1 from congrArg Prod.snd hfin.symm]
  exact eatLit_suffix _ _ _ h1

theorem matchSamesiteAv_suffix : ∀ (s : List Char) (av : Av) (r : List Char),
    matchSamesiteAv s = some (av, r) → r <:+ s := by
  intro s av r h
  simp only [matchSamesiteAv, obind_eq_some, Option.some.injEq] at h
  obtain ⟨r1, h1, ⟨v, rest⟩, h2, hfin⟩ := h
  rw [show r = rest from congrArg Prod.snd hfin.symm]
  exact (matchSamesiteValue_suffix _ _ _ h2).trans (eatLit_suffix _ _ _ h1)

theorem matchExtensionAv_suffix : ∀ (s : List Char) (av : Av) (r : List Char),
    matchExtensionAv s = some (av, r) → r <:+ s := by
  intro s av r h
  simp only [matchExtensionAv] at h
  split at h
  · simp at h
  · injection h with h
    rw [show r = s.dropWhile isExtensionChar from congrArg Prod.snd h.symm]
    exact List.dropWhile_suffix _

theorem cookieAv_suffix : ∀ (s : List Char) (av : Av) (r : List Char),
    cookieAv s = some (av, r) → r <:+ s := by
  intro s av r h
  simp only [cookieAv] at h
  cases h1 : matchExpiresAv s with
  | some x =>
    rw [h1] at h; injection h with h; subst h
    exact matchExpiresAv_suffix _ _ _ h1
  | none =>
  rw [h1] at h
  cases h2 : matchMaxAgeAv s with
  | some x =>
    rw [h2] at h; injection h with h; subst h
    exact matchMaxAgeAv_suffix _ _ _ h2
  | none =>
  rw [h2] at h
  cases h3 : matchDomainAv s with
  | some x =>
    rw [h3] at h; injection h with h; subst h
    exact matchDomainAv_suffix _ _ _ h3
  | none =>
  rw [h3] at h
  cases h4 : matchPathAv s with
  | some x =>
    rw [h4] at h; injection h with h; subst h
    exact matchPathAv_suffix _ _ _ h4
  | none =>
  rw [h4] at h
  cases h5 : matchSecureAv s with
  | some x =>
    rw [h5] at h; injection h with h; subst h
    exact matchSecureAv_suffix _ _ _ h5
  | none =>
  rw [h5] at h
  cases h6 : matchHttponlyAv s with
  | some x =>
    rw [h6] at h; injection h with h; subst h
    exact matchHttponlyAv_suffix _ _ _ h6
  | none =>
  rw [h6] at h
  cases h7 : matchSamesiteAv s with
  | some x =>
    rw [h7] at h; injection h with h; subst h
    exact matchSamesiteAv_suffix _ _ _ h7
  | none =>
  rw [h7] at h
  exact matchExtensionAv_suffix _ _ _ h

theorem avLoop_suffix : ∀ (fuel : Nat) (s : List Char) (g : SCGroups),
    (avLoop fuel s g).2 <:+ s := by
  intro fuel
  induction fuel with
  | zero => intro s g; exact List.suffix_refl s
  | succ n ih =>
    intro s g
    simp only [avLoop]
    split
    · rename_i r
      cases hc : cookieAv r with
      | some p =>
        obtain ⟨av, rest⟩ := p
        simp only
        exact (ih rest _).trans
          ((cookieAv_suffix r av rest hc).trans ⟨[';', ' '], rfl⟩)
      | none => exact List.suffix_refl _
    · exact List.suffix_refl _

theorem matchSetCookie_suffix : ∀ (s : List Char) (g : SCGroups)
    (r : List Char), matchSetCookie s = some (g, r) → r <:+ s := by
  intro s g r h
  simp only [matchSetCookie] at h
  split at h
  · simp at h
  · split at h
    · rename_i r2 heq
      injection h with h
      rw [show r = (avLoop ((r2.dropWhile isCookieOctet).length + 1)
          (r2.dropWhile isCookieOctet)
          { name := s.takeWhile isTokenChar,
            value := r2.takeWhile isCookieOctet }).2
          from congrArg Prod.snd h.symm]
      have h2 : r2 <:+ s.dropWhile isTokenChar := by
        rw [heq]; exact List.suffix_cons '=' r2
      exact ((avLoop_suffix _ _ _).trans (List.dropWhile_suffix _)).trans
        (h2.trans (List.dropWhile_suffix _))
    · simp at h

theorem extensionsOf_eq_nil (g : SCGroups) : extensionsOf g = [] := rfl

theorem parse_eq_server (kind s : String) (now : Instant)
    (hk : CookieType.from_string (some kind) = some .server) :
    parse kind s now =
      match matchSetCookie (chars s) with
      | none => .ok []
      | some (g, _) =>
        match convertExpires g with
        | .error e => .error e
        | .ok exp =>
          match convertMaxAge g with
          | .error e => .error e
          | .ok ma => .ok [serverCookie g exp ma s now] := by
  unfold parse
  rw [hk]

theorem convertExpires_error {g : SCGroups} {e : Unit}
    (h : convertExpires g = .error e) :
    ∃ d, g.expires = some d ∧ dateutilParseRfc1123 d = none := by
  unfold convertExpires at h
  split at h
  · simp at h
  · rename_i d hd
    split at h
    · rename_i hdu
      exact ⟨d, hd, hdu⟩
    · simp at h

theorem convertMaxAge_error {g : SCGroups} {e : Unit}
    (h : convertMaxAge g = .error e) :
    ∃ ds, g.max_age = some ds ∧ max_age_converter ds = none := by
  unfold convertMaxAge at h
  split at h
  · simp at h
  · rename_i ds hds
    split at h
    · rename_i hover
      exact ⟨ds, hds, hover⟩
    · simp at h

theorem parse_eq_client (kind s : String) (now : Instant)
    (hk : CookieType.from_string (some kind) = some .client) :
    parse kind s now =
      .ok (scanClient ((chars s).length + 1) (chars s) now) := by
  unfold parse
  rw [hk]

theorem scanClient_nil : ∀ (fuel : Nat) (now : Instant),
    scanClient fuel [] now = [] := by
  intro fuel now
  cases fuel <;> rfl

theorem strip_not_of_octet {y : Char} (h : isCookieOctet y = true) :
    ([';', ' '] : List Char).contains y = false := by
  have h1 : y ≠ ';' := by rintro rfl; exact absurd h (by decide)
  have h2 : y ≠ ' ' := by rintro rfl; exact absurd h (by decide)
  simp [List.contains_eq_any_beq, h1, h2]

theorem pyRstrip_client (nm v : List Char)
    (hv : ∀ x ∈ v, isCookieOctet x = true) :
    pyRstrip (nm ++ '=' :: v) [';', ' '] = nm ++ '=' :: v ∧
    pyRstrip (nm ++ '=' :: v ++ [';', ' ']) [';', ' '] = nm ++ '=' :: v := by
  have key : (v.reverse ++ '=' :: nm.reverse).dropWhile
      (fun c => ([';', ' '] : List Char).contains c) =
      v.reverse ++ '=' :: nm.reverse := by
    cases hvr : v.reverse with
    | nil =>
      simp only [List.nil_append]
      rw [List.dropWhile_cons_of_neg (by decide)]
    | cons y ys =>
      have hy : y ∈ v := by
        have hm : y ∈ v.reverse := by rw [hvr]; exact List.mem_cons_self y ys
        exact List.mem_reverse.mp hm
      have hns := strip_not_of_octet (hv y hy)
      rw [List.cons_append,
        List.dropWhile_cons_of_neg (by simp only [hns]; decide)]
  constructor
  · unfold pyRstrip
    rw [show (nm ++ '=' :: v).reverse = v.reverse ++ '=' :: nm.reverse from
      by simp]
    rw [key]
    simp
  · unfold pyRstrip
    rw [show (nm ++ '=' :: v ++ [';', ' ']).reverse =
        ' ' :: ';' :: (v.reverse ++ '=' :: nm.reverse) from by simp]
    rw [List.dropWhile_cons_of_pos (by decide),
      List.dropWhile_cons_of_pos (by decide), key]
    simp

theorem matchClientPair_inv : ∀ (s nm v grp rest : List Char),
    matchClientPair s = some ((nm, v, grp), rest) →
    nm ≠ [] ∧ (∀ x ∈ nm, isTokenChar x = true) ∧
    (∀ x ∈ v, isCookieOctet x = true) ∧
    (grp = nm ++ '=' :: v ∨ grp = nm ++ '=' :: v ++ [';', ' ']) := by
  intro s nm v grp rest h
  simp only [matchClientPair] at h
  split at h
  · simp at h
  · rename_i hne
    split at h
    · rename_i r2 heq
      have htok : ∀ x ∈ s.takeWhile isTokenChar, isTokenChar x = true :=
        List.all_eq_true.mp List.all_takeWhile
      have hoct : ∀ x ∈ r2.takeWhile isCookieOctet, isCookieOctet x = true :=
        List.all_eq_true.mp List.all_takeWhile
      have hnm : s.takeWhile isTokenChar ≠ [] := by
        simpa [List.isEmpty_iff] using hne
      split at h
      · simp only [Option.some.injEq, Prod.mk.injEq] at h
        obtain ⟨⟨h1, h2, h3⟩, h4⟩ := h
        subst h1; subst h2; subst h3
        exact ⟨hnm, htok, hoct, Or.inr rfl⟩
      · simp only [Option.some.injEq, Prod.mk.injEq] at h
        obtain ⟨⟨h1, h2, h3⟩, h4⟩ := h
        subst h1; subst h2; subst h3
        exact ⟨hnm, htok, hoct, Or.inl rfl⟩
    · simp at h

theorem scanClient_cons_some (fuel : Nat) (a : Char) (t : List Char)
    (now : Instant) (nm v grp rest : List Char)
    (hm : matchClientPair (a :: t) = some ((nm, v, grp), rest)) :
    scanClient (fuel + 1) (a :: t) now =
      clientCookie nm v grp now :: scanClient fuel rest now := by
  simp [scanClient, hm]

theorem scanClient_cons_none (fuel : Nat) (a : Char) (t : List Char)
    (now : Instant) (hm : matchClientPair (a :: t) = none) :
    scanClient (fuel + 1) (a :: t) now = scanClient fuel t now := by
  simp [scanClient, hm]

theorem scanClient_mem : ∀ (fuel : Nat) (l : List Char) (now : Instant)
    (c : Cookie), c ∈ scanClient fuel l now →
    ∃ nm v, nm ≠ [] ∧ (∀ x ∈ nm, isTokenChar x = true) ∧
      (∀ x ∈ v, isCookieOctet x = true) ∧
      c = { name := ofChars nm, value := ofChars v,
            raw := ofChars (nm ++ '=' :: v), cookie_type := some .client,
            received_at := now } := by
  intro fuel
  induction fuel with
  | zero => intro l now c hc; simp [scanClient] at hc
  | succ n ih =>
    intro l now c hc
    cases l with
    | nil => simp [scanClient] at hc
    | cons a tail =>
      cases hm : matchClientPair (a :: tail) with
      | none =>
        rw [scanClient_cons_none n a tail now hm] at hc
        exact ih tail now c hc
      | some pr =>
        obtain ⟨⟨nm, v, grp⟩, rest⟩ := pr
        rw [scanClient_cons_some n a tail now nm v grp rest hm] at hc
        rcases List.mem_cons.mp hc with hc1 | hc2
        · obtain ⟨hne, htok, hoct, hgrp⟩ := matchClientPair_inv _ _ _ _ _ hm
          refine ⟨nm, v, hne, htok, hoct, ?_⟩
          rw [hc1]
          unfold clientCookie
          rcases hgrp with rfl | rfl
          · rw [(pyRstrip_client nm v hoct).1]
          · rw [(pyRstrip_client nm v hoct).2]
        · exact ih rest now c hc2

theorem scanClient_reparse : ∀ (nm v : List Char) (now : Instant),
    nm ≠ [] → (∀ x ∈ nm, isTokenChar x = true) →
    (∀ x ∈ v, isCookieOctet x = true) →
    scanClient ((nm ++ '=' :: v).length + 1) (nm ++ '=' :: v) now =
      [{ name := ofChars nm, value := ofChars v,
         raw := ofChars (nm ++ '=' :: v), cookie_type := some .client,
         received_at := now }] := by
  intro nm v now hne htok hoct
  have hsplit := takeWhile_append_cons isTokenChar nm '=' v htok (by decide)
  have hval := takeWhile_all_eq isCookieOctet v hoct
  have hempty : nm.isEmpty = false := List.isEmpty_eq_false.mpr hne
  have hmp : matchClientPair (nm ++ '=' :: v) =
      some ((nm, v, nm ++ '=' :: v), []) := by
    simp [matchClientPair, hsplit.1, hsplit.2, hval.1, hval.2, hempty]
  obtain ⟨a, nm', rfl⟩ : ∃ a nm', nm = a :: nm' := by
    cases nm with
    | nil => exact absurd rfl hne
    | cons a nm' => exact ⟨a, nm', rfl⟩
  have hs : (a :: nm') ++ '=' :: v = a :: (nm' ++ '=' :: v) := rfl
  rw [hs] at hmp ⊢
  rw [scanClient_cons_some _ a (nm' ++ '=' :: v) now (a :: nm') v
    (a :: (nm' ++ '=' :: v)) [] hmp, scanClient_nil]
  unfold clientCookie
  rw [show a :: (nm' ++ '=' :: v) = (a :: nm') ++ '=' :: v from rfl,
    (pyRstrip_client (a :: nm') v hoct).1]

/-! ## Claim theorems -/

/-- C1, counterexample: the claim asserts
`DomainPolicy.default().match("www.example.com", ".example.com")` is true,
but the default policy sets `StrictEquality`, whose branch returns `False`
for every pair that is not exactly equal — the call returns false. -/
theorem C1_counterexample :
    DomainPolicy.match DomainPolicy.default "www.example.com" ".example.com" =
      some false := by rfl

/-- C1, amended: for the default-constructed domain policy,
`match("example.com", "example.com")` is true,
`match("www.example.com", ".example.com")` is false (StrictEquality
short-circuits every non-equal pair), and `match("example.com", "com")` is
false. -/
theorem C1_default_policy_match :
    DomainPolicy.match DomainPolicy.default "example.com" "example.com" =
        some true ∧
      DomainPolicy.match DomainPolicy.default "www.example.com"
          ".example.com" = some false ∧
      DomainPolicy.match DomainPolicy.default "example.com" "com" =
        some false :=
  ⟨rfl, rfl, rfl⟩

/-- C2: expiry precedence of `Cookie.expired`.  When `max_age` is set,
`expired(t)` holds exactly when `t` is later than `received_at + max_age`
(whatever `expires` holds — the first conjunct applies to every cookie with
`max_age` set), and in particular is false one second before and true one
second after that instant; with only `expires` set, `expired(t)` holds
exactly when `t` is later than `expires`; with neither, it is always
false. -/
theorem C2_expiry_precedence : ∀ (c : Cookie) (t : Instant),
    (∀ m, c.max_age = some m →
      ((c.expired t = true ↔ c.received_at + m < t) ∧
        c.expired (c.received_at + m - 1) = false ∧
        c.expired (c.received_at + m + 1) = true)) ∧
    (c.max_age = none → ∀ e, c.expires = some e →
      (c.expired t = true ↔ e < t)) ∧
    (c.max_age = none → c.expires = none → c.expired t = false) := by
  intro c t
  refine ⟨fun m hm => ?_, fun hm e he => ?_, fun hm he => ?_⟩
  · unfold Cookie.expired
    rw [hm]
    refine ⟨by simp, by simp, by simp⟩
  · unfold Cookie.expired
    rw [hm, he]
    simp
  · unfold Cookie.expired
    rw [hm, he]

/-- C2, witness: a concrete cookie with `max_age = 5` (and an `expires`
value also present) is expired one second after `received_at + max_age`. -/
theorem C2_expiry_precedence_witness :
    Cookie.expired
      { name := "a", value := "b", max_age := some 5, expires := some 100,
        received_at := 0 }
      ((0 : Instant) + 5 + 1) = true :=
  ((C2_expiry_precedence
      { name := "a", value := "b", max_age := some 5, expires := some 100,
        received_at := 0 } 0).1 5 rfl).2.2

/-- C3: the claim states `Jar.cookies_for` returns
`storage.find(domain = effective_hostname)`; the code's body purges (when
asked) and then returns the literal empty list.  At a concrete jar whose
backend mapping holds an unexpired cookie under `"example.com::sid"` (the
mapping is an ordinary constructor argument of `InMemory`) and a request to
`http://example.com/`, the call returns normally with `[]` and the storage
untouched, even though the effective hostname resolves to `example.com` and
`storage.find` on it returns that cookie. -/
theorem C3_cookies_for_is_stub :
    Jar.cookies_for
        { storage := ⟨[("example.com::sid",
            [{ name := "sid", value := "1",
               domain := some "example.com" }])]⟩ }
        { url := "http://example.com/" } true 0 =
      .ok ({ storage := ⟨[("example.com::sid",
            [{ name := "sid", value := "1",
               domain := some "example.com" }])]⟩ }, []) ∧
      RequestsAdapter.effective_hostname { url := "http://example.com/" } =
        some "example.com" ∧
      Storage.find
          ⟨[("example.com::sid",
            [{ name := "sid", value := "1",
               domain := some "example.com" }])]⟩
          "example.com" =
        [{ name := "sid", value := "1", domain := some "example.com" }] :=
  ⟨rfl, rfl, rfl⟩

/-- C4: the claim states no exception crosses the `parse` boundary; but an
`Expires` attribute matching the RFC-1123 shape with an impossible calendar
date (here February 31) is captured by the regular expression and then makes
`dateutil.parser.parse` raise `ValueError` inside `_expires_converter`,
which propagates out of `parse`. -/
theorem C4_parse_raises_on_invalid_date :
    parse "Set-Cookie" "a=b; Expires=Mon, 31 Feb 2020 10:00:00 GMT" 0 =
      .error () := by rfl

/-- C5, counterexample: parsing `"a=b; Foo=Bar\x01junk"` refutes the claim
twice over.  The whole string cannot match the composed pattern (no
character class or literal in it admits the control character `\x01`), yet
`parse` does not return an empty sequence — `re.match` anchors at the start
only, and the exhibited match leaves `"\x01junk"` unconsumed.  And the
unrecognized attribute `Foo=Bar` inside the matched portion is not captured:
the produced cookie's `extensions` mapping is empty. -/
theorem C5_counterexample :
    parse "Set-Cookie" "a=b; Foo=Bar\x01junk" 0 =
      .ok [{ name := "a", value := "b", extensions := [],
             raw := "a=b; Foo=Bar\x01junk", cookie_type := some .server,
             received_at := 0 }] ∧
    matchSetCookie (chars "a=b; Foo=Bar\x01junk") =
      some ({ name := chars "a", value := chars "b" }, chars "\x01junk") :=
  ⟨rfl, rfl⟩

/-- C7, counterexample: the claim asserts that when `path` is not given no
path-based restriction applies; but `list` filters by `v.path == path` with
the defaulted `path = None`.  For a backend state holding, under the key
`"d::n"` (which starts with the `"d::"` prefix the claim names), a cookie
whose path is `"/x"` — a state passed directly to the `InMemory`
constructor, whose mapping `list` merely iterates — `list(domain = "d")`
returns nothing. -/
theorem C7_counterexample :
    InMemory.list
        ⟨[("d::n",
          [{ name := "n", value := "v", domain := some "d",
             path := some "/x" }])]⟩
        (some "d") none none = [] ∧
    lStartsWith (chars "d::n") (chars (InMemory.key "d" "")) = true :=
  ⟨rfl, rfl⟩

/-- C5, amended: `parse("Set-Cookie", s)` applies the composed pattern
anchored at the start of the string only (`re.match`): it returns the empty
sequence exactly when no prefix of the string matches; on a match the
matched portion is a prefix of the string and the remainder is ignored; the
result is then exactly one Cookie whose `extensions` mapping is always empty
— an unrecognized attribute is consumed by the extension alternative, which
has no capture group, and is not recorded — unless a captured attribute's
conversion raises, which happens exactly when a shape-valid `Expires`
capture is not a real calendar date (`dateutil`'s `ValueError`) or a
`Max-Age` capture exceeds the `timedelta` bound (`OverflowError`). -/
theorem C5_parse_set_cookie_shape : ∀ (s : String) (now : Instant),
    (parse "Set-Cookie" s now = .ok [] ↔ matchSetCookie (chars s) = none) ∧
    (∀ cs, parse "Set-Cookie" s now = .ok cs →
      cs = [] ∨ ∃ c, cs = [c] ∧ c.extensions = []) ∧
    (∀ g rest, matchSetCookie (chars s) = some (g, rest) →
      ∃ pre, pre ++ rest = chars s) ∧
    (∀ e, parse "Set-Cookie" s now = .error e →
      ∃ g rest, matchSetCookie (chars s) = some (g, rest) ∧
        ((∃ d, g.expires = some d ∧ dateutilParseRfc1123 d = none) ∨
          (∃ ds, g.max_age = some ds ∧ max_age_converter ds = none))) := by
  intro s now
  have hk : CookieType.from_string (some "Set-Cookie") = some .server := rfl
  refine ⟨?_, ?_, ?_, ?_⟩
  · rw [parse_eq_server _ _ _ hk]
    split
    · rename_i heq
      simp [heq]
    · rename_i g rest heq
      split
      · simp [heq]
      · split
        · simp [heq]
        · simp [heq]
  · intro cs hp
    rw [parse_eq_server _ _ _ hk] at hp
    split at hp
    · injection hp with h
      exact Or.inl h.symm
    · split at hp
      · exact absurd hp (by simp)
      · split at hp
        · exact absurd hp (by simp)
        · injection hp with h
          exact Or.inr ⟨_, h.symm, rfl⟩
  · intro g rest hm
    exact matchSetCookie_suffix (chars s) g rest hm
  · intro e hp
    rw [parse_eq_server _ _ _ hk] at hp
    split at hp
    · exact absurd hp (by simp)
    · rename_i g rest heq
      refine ⟨g, rest, heq, ?_⟩
      split at hp
      · rename_i e2 hce
        exact Or.inl (convertExpires_error hce)
      · rename_i exp hexp
        split at hp
        · rename_i e2 hcm
          exact Or.inr (convertMaxAge_error hcm)
        · exact absurd hp (by simp)

/-- C5, witness: the amended theorem's prefix conjunct applied to the
concrete header `"x=y"`, whose match consumes the whole string. -/
theorem C5_parse_set_cookie_shape_witness :
    ∃ pre, pre ++ ([] : List Char) = chars "x=y" :=
  (C5_parse_set_cookie_shape "x=y" 0).2.2.1
    { name := chars "x", value := chars "y" } [] (by rfl)

/-- C6: round trip.  Every cookie produced by `parse(kind, s)` has a `raw`
string whose re-parse with the same header kind yields a sequence containing
a cookie equal to it under the defined equality (which excludes `raw`,
`received_at` and `cookie_type`); `now2` being arbitrary shows the second
parse's capture time is irrelevant. -/
theorem C6_roundtrip : ∀ (kind s : String) (now now2 : Instant)
    (cs : List Cookie) (c : Cookie),
    parse kind s now = .ok cs → c ∈ cs →
    ∃ cs', parse kind c.raw now2 = .ok cs' ∧
      ∃ c', c' ∈ cs' ∧ eqDefined c c' = true := by
  intro kind s now now2 cs c hp hc
  cases hk : CookieType.from_string (some kind) with
  | none =>
    unfold parse at hp
    rw [hk] at hp
    injection hp with h
    rw [← h] at hc
    simp at hc
  | some t =>
    cases t with
    | server =>
      rw [parse_eq_server _ _ _ hk] at hp
      split at hp
      · injection hp with h
        rw [← h] at hc
        simp at hc
      · rename_i g rest heq
        split at hp
        · exact absurd hp (by simp)
        · rename_i exp hexp
          split at hp
          · exact absurd hp (by simp)
          · rename_i ma hma
            injection hp with h
            rw [← h] at hc
            simp only [List.mem_singleton] at hc
            subst hc
            refine ⟨[serverCookie g exp ma s now2], ?_,
              serverCookie g exp ma s now2, List.mem_singleton.mpr rfl, ?_⟩
            · have hP : parse kind s now2 =
                  .ok [serverCookie g exp ma s now2] := by
                rw [parse_eq_server _ _ _ hk]
                simp only [heq, hexp, hma]
              exact hP
            · simp [eqDefined, serverCookie]
    | client =>
      rw [parse_eq_client _ _ _ hk] at hp
      injection hp with h
      rw [← h] at hc
      obtain ⟨nm, v, hne, htok, hoct, rfl⟩ := scanClient_mem _ _ _ _ hc
      refine ⟨[{ name := ofChars nm, value := ofChars v,
                 raw := ofChars (nm ++ '=' :: v),
                 cookie_type := some .client, received_at := now2 }], ?_,
        { name := ofChars nm, value := ofChars v,
          raw := ofChars (nm ++ '=' :: v), cookie_type := some .client,
          received_at := now2 }, ?_, ?_⟩
      · have hP : parse kind (ofChars (nm ++ '=' :: v)) now2 =
            .ok [{ name := ofChars nm, value := ofChars v,
                   raw := ofChars (nm ++ '=' :: v),
                   cookie_type := some .client, received_at := now2 }] := by
          rw [parse_eq_client _ _ _ hk,
            show chars (ofChars (nm ++ '=' :: v)) = nm ++ '=' :: v from rfl,
            scanClient_reparse nm v now2 hne htok hoct]
        exact hP
      · exact List.mem_singleton.mpr rfl
      · simp [eqDefined]

/-- C6, witness: the round trip applied to the concrete client header
`"a=b"`, re-parsed at a different capture time. -/
theorem C6_roundtrip_witness :
    ∃ cs', parse "Cookie"
        (({ name := "a", value := "b", raw := "a=b",
            cookie_type := some CookieType.client,
            received_at := 0 } : Cookie)).raw 1 = .ok cs' ∧
      ∃ c', c' ∈ cs' ∧
        eqDefined
          { name := "a", value := "b", raw := "a=b",
            cookie_type := some CookieType.client, received_at := 0 } c' =
          true :=
  C6_roundtrip "Cookie" "a=b" 0 1
    [{ name := "a", value := "b", raw := "a=b",
       cookie_type := some CookieType.client, received_at := 0 }]
    { name := "a", value := "b", raw := "a=b",
      cookie_type := some CookieType.client, received_at := 0 }
    (by rfl) (by simp)

/-- C7, amended: `list(domain=d, name=n, path=p)` returns exactly the
cookies stored under keys starting with `"<d>::<n-or-empty>"` whose path
equals `p` — including when `p` is not given, in which case the defaulted
`None` restricts the result to cookies that have no path. -/
theorem C7_list_characterization : ∀ (m : InMemory) (d : String)
    (n p : Option String) (c : Cookie),
    c ∈ m.list (some d) n p ↔
      ∃ kv ∈ m.cookies,
        lStartsWith (chars kv.1) (chars (InMemory.key d (n.getD ""))) = true ∧
        c ∈ kv.2 ∧ c.path = p := by
  intro m d n p c
  simp only [InMemory.list, List.mem_flatten, List.mem_map, List.mem_filter]
  constructor
  · rintro ⟨_, ⟨kv, ⟨hkv, hpre⟩, rfl⟩, hc⟩
    have hc' := List.mem_filter.mp hc
    exact ⟨kv, hkv, hpre, hc'.1, of_decide_eq_true hc'.2⟩
  · rintro ⟨kv, hkv, hpre, hc, hpath⟩
    exact ⟨kv.2.filter (fun v => v.path = p), ⟨kv, ⟨hkv, hpre⟩, rfl⟩,
      List.mem_filter.mpr ⟨hc, decide_eq_true hpath⟩⟩

/-- C8: the claim says saving the same cookie twice leaves exactly one entry
under its key, but no save ever stores an entry: `set.add` invokes the
attrs-generated `__hash__` of the frozen `Cookie` class, which hashes the
`extensions` dict and raises `TypeError` — the very first `save([c])` of the
claim's scenario already raises, for every cookie (here evaluated at a
concrete one; the model's `cookieHash` raises for all).  The repo's own
`test_storage.py` exercises the same generated hash through
`InMemory.remove` and hits the same `TypeError`, so the spec's set-dedup
semantics, not the code, is the intent. -/
theorem C8_save_raises_type_error :
    InMemory.save ⟨[]⟩ [{ name := "n", value := "v", domain := some "d" }] =
      .error () ∧
    InMemory.remove ⟨[]⟩ { name := "n", value := "v", domain := some "d" } =
      .error () :=
  ⟨rfl, rfl⟩

/-- C9: `DomainPolicy.match` is not total.  For every policy whose matching
flags do not include `StrictEquality`, the request host `"example.com"`
(non-empty, no leading or trailing dot, not an IP address) and the cookie
domain `".other.org"` (not equal to and not a substring of the host, not a
well-known public suffix) reach the unguarded
`request_host.index(cookie_domain)`, which raises `ValueError` instead of
the declared boolean. -/
theorem C9_match_not_total : ∀ (bl al : Option (List String))
    (m : DomainMatching), m.strict_equality = false →
    DomainPolicy.match ⟨bl, al, m⟩ "example.com" ".other.org" = none := by
  intro bl al m h
  obtain ⟨se, ri, rj⟩ := m
  simp only at h
  subst h
  cases ri <;> cases rj <;> rfl

/-- C9, witness: a concrete policy without `StrictEquality` raises on the
claim's example inputs. -/
theorem C9_match_not_total_witness :
    DomainPolicy.match ⟨none, none, ⟨false, true, true⟩⟩ "example.com"
      ".other.org" = none :=
  C9_match_not_total none none ⟨false, true, true⟩ rfl

/-- C10: `Policy.match` is a constant-false stub: whatever the policy
configuration, cookie and request, it returns false. -/
theorem C10_policy_match_always_false :
    ∀ (p : Policy) (c : Cookie) (r : Request), Policy.match p c r = false :=
  fun _ _ _ => rfl

end Moreos
